import Mathlib

/-!
Shallow embedding of the ai-apps-config-mcp core: the config registry
(`src/app-config-mapping.ts`, class `AppConfigMapping`) and the config
reader (class `ConfigReader`).  Filesystem access and the external
parsing/serialisation libraries (JSON.parse, plist.parse, yaml.load,
JSON.stringify) are parameters of the embedding; thrown errors are
modelled as their message strings via `Except String`.
-/

/-- Kind reported by a filesystem stat: regular file, directory, or
anything else (socket, fifo, ...). -/
inductive FileKind where
  | file
  | directory
  | other
deriving DecidableEq, Repr

/-- Model of the `fs/promises` operations the program uses.  Each
operation either succeeds or throws an error, modelled as its message. -/
structure FS where
  access : String → Except String Unit
  stat : String → Except String FileKind
  readFile : String → Except String String
  readdir : String → Except String (List String)

/-- `type` field of a config location (`'file' | 'directory'`). -/
inductive LocType where
  | file
  | directory
deriving DecidableEq, Repr

/-- `format` field of a config location. -/
inductive Format where
  | json
  | plist
  | yaml
  | text
  | directory
deriving DecidableEq, Repr

/-- The string the TypeScript union member denotes. -/
def Format.toStr : Format → String
  | .json => "json"
  | .plist => "plist"
  | .yaml => "yaml"
  | .text => "text"
  | .directory => "directory"

/-- interface ConfigLocation. -/
structure ConfigLocation where
  path : String
  type : LocType
  description : String
  format : Format
deriving DecidableEq, Repr

/-- interface AppConfig. -/
structure AppConfig where
  displayName : String
  bundleId : Option String := none
  configs : List ConfigLocation
deriving DecidableEq, Repr

/-- The registry's backing object: keys are unique; insertion order kept. -/
abbrev Registry := List (String × AppConfig)

/-- The built-in APP_CONFIGS table of AppConfigMapping. -/
def APP_CONFIGS : Registry :=
  [ ("gemini",
      { displayName := "Google Gemini",
        configs := [
          { path := "~/.gemini/settings.json", type := .file,
            description := "Gemini settings configuration", format := .json } ] }),
    ("claude desktop",
      { displayName := "Claude Desktop",
        configs := [
          { path := "~/Library/Application Support/Claude/claude_desktop_config.json",
            type := .file,
            description := "Claude Desktop configuration", format := .json } ] }),
    ("claude code",
      { displayName := "Claude Code",
        configs := [
          { path := "~/.claude/", type := .directory,
            description := "Claude Code configuration directory", format := .directory } ] }),
    ("vscode",
      { displayName := "Visual Studio Code",
        bundleId := some "com.microsoft.VSCode",
        configs := [
          { path := "~/.vscode/mcp.json", type := .file,
            description := "VS Code MCP configuration", format := .json } ] }),
    ("cursor",
      { displayName := "Cursor",
        configs := [
          { path := "~/.cursor/mcp.json", type := .file,
            description := "Cursor MCP configuration", format := .json } ] }) ]

/-- ASCII lowercasing of one character, the fragment of
`String.prototype.toLowerCase` the registry's keys exercise. -/
def charLower (c : Char) : Char :=
  if 65 ≤ c.toNat ∧ c.toNat ≤ 90 then Char.ofNat (c.toNat + 32) else c

/-- Model of JavaScript `s.toLowerCase()` (ASCII fragment). -/
def jsToLower (s : String) : String :=
  String.mk (s.data.map charLower)

/-- Does the char list `p` lead the char list `s` (i.e. `s` begins with `p`)? -/
def leadsWith : List Char → List Char → Bool
  | [], _ => true
  | _ :: _, [] => false
  | p :: ps, c :: cs => p == c && leadsWith ps cs

/-- Model of JavaScript `s.startsWith(pat)`. -/
def jsStartsWith (s pat : String) : Bool :=
  leadsWith pat.data s.data

/-- Drop the first `n` characters of a string. -/
def dropChars (n : Nat) (s : String) : String :=
  String.mk (s.data.drop n)

/-- expandPath: `path.replace(/^~/, homedir())` — replace one leading tilde
with the home directory. -/
def expandPath (home : String) (path : String) : String :=
  if jsStartsWith path "~" then home ++ dropChars 1 path else path

/-- getAppConfig: index `APP_CONFIGS` at the lowercased key; the object index is
modelled as `find?` over the unique-keyed association list. -/
def getAppConfig (m : Registry) (appKey : String) : Option AppConfig :=
  (m.find? (fun kv => kv.1 == jsToLower appKey)).map (fun kv => kv.2)

/-- The type check of findConfigsForApp:
`(config.type === 'file' && stats.isFile()) || (config.type === 'directory' && stats.isDirectory())`. -/
def typeMatches (t : LocType) (k : FileKind) : Bool :=
  (t == .file && k == .file) || (t == .directory && k == .directory)

/-- The for-loop body of findConfigsForApp: for each candidate, expand the
path, try `access` then `stat` (any error skips the candidate), keep a copy
of the candidate with the expanded path when the kind matches. -/
def resolveLoop (fs : FS) (home : String) : List ConfigLocation → List ConfigLocation
  | [] => []
  | config :: rest =>
    let expandedPath := expandPath home config.path
    match fs.access expandedPath with
    | .error _ => resolveLoop fs home rest
    | .ok _ =>
      match fs.stat expandedPath with
      | .error _ => resolveLoop fs home rest
      | .ok stats =>
        if typeMatches config.type stats then
          { config with path := expandedPath } :: resolveLoop fs home rest
        else
          resolveLoop fs home rest

/-- findConfigsForApp. -/
def findConfigsForApp (fs : FS) (home : String) (m : Registry) (appKey : String) :
    List ConfigLocation :=
  match getAppConfig m appKey with
  | none => []
  | some appConfig => resolveLoop fs home appConfig.configs

/-- State-passing form of findConfigsForApp.  The source function body
assigns only to the local `validConfigs` array and pushes fresh copies
`[...config, path: expandedPath]`; it contains no store to `APP_CONFIGS`
or to any stored ConfigLocation, so the registry component is returned
unchanged. -/
def findConfigsForAppSt (fs : FS) (home : String) (m : Registry) (appKey : String) :
    List ConfigLocation × Registry :=
  (findConfigsForApp fs home m appKey, m)

/-- addConfigLocation: look the app up by the lowercased key and push one
location onto its `configs`; mutating the found entry of the unique-keyed
object is modelled as a key-preserving map. -/
def addConfigLocation (m : Registry) (appKey : String) (configLocation : ConfigLocation) :
    Registry :=
  m.map fun kv =>
    if kv.1 == jsToLower appKey then
      (kv.1, { kv.2 with configs := kv.2.configs ++ [configLocation] })
    else kv

/-- updateAppConfigs: look the app up by the lowercased key and replace its
whole `configs` list. -/
def updateAppConfigs (m : Registry) (appKey : String) (configs : List ConfigLocation) :
    Registry :=
  m.map fun kv =>
    if kv.1 == jsToLower appKey then (kv.1, { kv.2 with configs := configs })
    else kv

/-! Spec-side description of resolution, written from the spec's words:
keep a candidate iff its expanded path exists and the actual kind matches
the declared type; return kept candidates with resolved paths in order. -/

/-- The kind the filesystem reports for `p`, or `none` on any error while
checking (the spec's "exists" is: access and stat both succeed). -/
def existsKindOf (fs : FS) (p : String) : Option FileKind :=
  match fs.access p, fs.stat p with
  | .ok _, .ok k => some k
  | _, _ => none

/-- Spec-side filter: the expanded path exists and its kind matches. -/
def specKeeps (fs : FS) (home : String) (c : ConfigLocation) : Bool :=
  match existsKindOf fs (expandPath home c.path) with
  | some k => typeMatches c.type k
  | none => false

/-- Spec-side resolution: declared candidates that pass the check, with
resolved paths, in declaration order; empty for an unknown key. -/
def resolveSpec (fs : FS) (home : String) (m : Registry) (appKey : String) :
    List ConfigLocation :=
  match getAppConfig m appKey with
  | none => []
  | some app =>
    (app.configs.filter (specKeeps fs home)).map
      (fun c => { c with path := expandPath home c.path })

theorem resolveLoop_eq_filterMap (fs : FS) (home : String) (cfgs : List ConfigLocation) :
    resolveLoop fs home cfgs =
      (cfgs.filter (specKeeps fs home)).map
        (fun c => { c with path := expandPath home c.path }) := by
  induction cfgs with
  | nil => rfl
  | cons c rest ih =>
    simp only [resolveLoop, List.filter_cons]
    cases hacc : fs.access (expandPath home c.path) with
    | error e => simp [specKeeps, existsKindOf, hacc, ih]
    | ok u =>
      cases hst : fs.stat (expandPath home c.path) with
      | error e => simp [specKeeps, existsKindOf, hacc, hst, ih]
      | ok k =>
        cases hm : typeMatches c.type k with
        | false => simp [specKeeps, existsKindOf, hacc, hst, hm, ih]
        | true => simp [specKeeps, existsKindOf, hacc, hst, hm, ih]

theorem findConfigsForApp_eq_spec (fs : FS) (home : String) (m : Registry) (appKey : String) :
    findConfigsForApp fs home m appKey = resolveSpec fs home m appKey := by
  unfold findConfigsForApp resolveSpec
  cases getAppConfig m appKey with
  | none => rfl
  | some app => exact resolveLoop_eq_filterMap fs home app.configs

/-- C1: for every registry, filesystem, home directory and application key,
findConfigsForApp returns exactly the declared candidate locations whose
expanded path exists and whose actual kind matches the declared type, as
copies carrying the resolved absolute path, in declaration order; an error
while checking one candidate only drops that candidate, and an unknown key
yields the empty list. -/
theorem findConfigsForApp_correct (fs : FS) (home : String) (m : Registry) (appKey : String) :
    findConfigsForApp fs home m appKey = resolveSpec fs home m appKey :=
  findConfigsForApp_eq_spec fs home m appKey

/-! String helpers modelling the JavaScript string/array methods the
reader uses, defined on character lists so that they evaluate. -/

/-- UTF-16-code-unit-style ordering on char lists, the comparison behind
the default `Array.prototype.sort()` on strings. -/
def strLeB : List Char → List Char → Bool
  | [], _ => true
  | _ :: _, [] => false
  | a :: as, b :: bs =>
    if a.toNat < b.toNat then true
    else if a.toNat == b.toNat then strLeB as bs
    else false

/-- Lexicographic string order used by the default sort. -/
def jsStrLe (a b : String) : Bool :=
  strLeB a.data b.data

/-- Model of the default `entries.sort()`: a stable sort by `jsStrLe`. -/
def sortStrings (l : List String) : List String :=
  l.insertionSort (fun a b => jsStrLe a b = true)

/-- Does the char list `s` contain `pat` as a contiguous run? -/
def hasSub (pat : List Char) : List Char → Bool
  | [] => leadsWith pat []
  | c :: cs => leadsWith pat (c :: cs) || hasSub pat cs

/-- Model of JavaScript `s.includes(t)`. -/
def jsIncludes (s t : String) : Bool :=
  hasSub t.data s.data

/-- Model of JavaScript `arr.join(sep)`. -/
def jsJoin (sep : String) : List String → String
  | [] => ""
  | [x] => x
  | x :: y :: xs => x ++ sep ++ jsJoin sep (y :: xs)

/-- Accumulating worker for `jsSplitNl`. -/
def splitNlAux : List Char → List Char → List String
  | [], acc => [String.mk acc.reverse]
  | c :: cs, acc =>
    if c == '\n' then String.mk acc.reverse :: splitNlAux cs []
    else splitNlAux cs (c :: acc)

/-- Model of JavaScript `s.split('\n')`; in particular `"".split` is `[""]`. -/
def jsSplitNl (s : String) : List String :=
  splitNlAux s.data []

/-- Drop leading whitespace of a char list. -/
def dropWhileWs : List Char → List Char
  | [] => []
  | c :: cs => if c.isWhitespace then dropWhileWs cs else c :: cs

/-- Model of JavaScript `s.trim()`: strip whitespace at both ends. -/
def jsTrim (s : String) : String :=
  String.mk (dropWhileWs (dropWhileWs s.data.reverse).reverse)

/-- Dynamic (JSON-like) value, the shape of the `any`-typed `parsed`
field: what JSON.parse, plist.parse or yaml.load can hand back, and the
entry list a directory read stores. -/
inductive JsValue where
  | null
  | bool (b : Bool)
  | num (n : Int)
  | str (s : String)
  | arr (elems : List JsValue)
  | obj (fields : List (String × JsValue))

/-- JavaScript truthiness of a `JsValue`: `null`, `false`, `0` and `""`
are falsy; every object and array (even empty) is truthy. -/
def JsValue.truthy : JsValue → Bool
  | .null => false
  | .bool b => b
  | .num n => n != 0
  | .str s => s != ""
  | .arr _ => true
  | .obj _ => true

/-- Truthiness of the optional `parsed` field (`undefined` is falsy). -/
def parsedTruthy : Option JsValue → Bool
  | none => false
  | some v => v.truthy

/-- Truthiness of the optional `error` field: absent (`undefined`) and the
empty string are falsy. -/
def strOptTruthy : Option String → Bool
  | none => false
  | some s => s != ""

/-- interface ConfigContent. -/
structure ConfigContent where
  path : String
  content : String
  parsed : Option JsValue := none
  format : String
  error : Option String := none

/-- The external libraries the reader calls: `JSON.parse`, `plist.parse`,
`yaml.load` (each either returns a value or throws, modelled as the
message), and `JSON.stringify(·, null, 2)`. -/
structure ExtLib where
  jsonParse : String → Except String JsValue
  plistParse : String → Except String JsValue
  yamlLoad : String → Except String JsValue
  stringify2 : JsValue → String

/-- The `switch (configLocation.format)` of `ConfigReader.readFile`:
which parser runs on the raw content (`none` when no parse is attempted,
i.e. for `text` and `directory` formats). -/
def parseByFormat (ext : ExtLib) : Format → String → Option (Except String JsValue)
  | .json, content => some (ext.jsonParse content)
  | .plist, content => some (ext.plistParse content)
  | .yaml, content => some (ext.yamlLoad content)
  | _, _ => none

/-- ConfigReader.readFile (private): read the raw text (an I/O error
propagates as the thrown exception, hence the `Except`), then attempt the
format-specific parse; a parse failure only sets `error`, keeping the raw
content. -/
def ConfigReader.readFileLoc (fs : FS) (ext : ExtLib) (configLocation : ConfigLocation) :
    Except String ConfigContent :=
  match fs.readFile configLocation.path with
  | .error e => .error e
  | .ok content =>
    let result : ConfigContent :=
      { path := configLocation.path, content := content,
        format := configLocation.format.toStr }
    .ok <|
      match parseByFormat ext configLocation.format content with
      | some (.ok v) => { result with parsed := some v }
      | some (.error msg) => { result with error := some ("Parse error: " ++ msg) }
      | none => result

/-- ConfigReader.readDirectory (private): list the entries, drop dotfiles,
sort, and build the synthetic listing; its own try/catch turns an error
into a ConfigContent with empty content and the message. -/
def ConfigReader.readDirectory (fs : FS) (configLocation : ConfigLocation) : ConfigContent :=
  match fs.readdir configLocation.path with
  | .ok entries =>
    let fileList := sortStrings (entries.filter (fun entry => !jsStartsWith entry "."))
    { path := configLocation.path,
      content := "Directory contents:\n" ++ jsJoin "\n" (fileList.map (fun file => "  " ++ file)),
      format := "directory",
      parsed := some (.arr (fileList.map .str)) }
  | .error e =>
    { path := configLocation.path, content := "", format := "directory", error := some e }

/-- ConfigReader.readConfig: dispatch on the declared type; the
surrounding try/catch turns a thrown read error into a ConfigContent with
empty content and the message, so the function is total. -/
def ConfigReader.readConfig (fs : FS) (ext : ExtLib) (configLocation : ConfigLocation) :
    ConfigContent :=
  if configLocation.type == .directory then
    ConfigReader.readDirectory fs configLocation
  else
    match ConfigReader.readFileLoc fs ext configLocation with
    | .ok c => c
    | .error e =>
      { path := configLocation.path, content := "",
        format := configLocation.format.toStr, error := some e }

/-- ConfigReader.searchInConfig: read, bail out to `[]` on a (truthy)
error, else scan the lines with `forEach((line, index) => ...)`, pushing
`Line N: <trimmed>` for each case-insensitive substring hit. -/
def ConfigReader.searchInConfig (fs : FS) (ext : ExtLib) (configLocation : ConfigLocation)
    (searchTerm : String) : List String :=
  let configContent := ConfigReader.readConfig fs ext configLocation
  if strOptTruthy configContent.error then []
  else
    let lines := jsSplitNl configContent.content
    lines.enum.foldl
      (fun matchingLines p =>
        if jsIncludes (jsToLower p.2) (jsToLower searchTerm) then
          matchingLines ++ ["Line " ++ toString (p.1 + 1) ++ ": " ++ jsTrim p.2]
        else matchingLines)
      []

/-- ConfigReader.formatConfigForDisplay: a truthy `error` gives the
one-line error message; otherwise a header then the directory listing, the
pretty-printed parse (only when `parsed` is truthy and the format is json
or plist), or the raw text truncated to 50 lines. -/
def ConfigReader.formatConfigForDisplay (ext : ExtLib) (configContent : ConfigContent) :
    String :=
  if strOptTruthy configContent.error then
    "Error reading " ++ configContent.path ++ ": " ++ configContent.error.getD ""
  else
    let output := "📄 " ++ configContent.path ++ "\n" ++ "Format: " ++ configContent.format ++ "\n\n"
    if configContent.format == "directory" then
      output ++ configContent.content
    else if parsedTruthy configContent.parsed
        && (configContent.format == "json" || configContent.format == "plist") then
      output ++ ext.stringify2 (configContent.parsed.getD JsValue.null)
    else
      let lines := jsSplitNl configContent.content
      if lines.length > 50 then
        output ++ jsJoin "\n" (lines.take 50)
          ++ "\n\n... (showing first 50 lines of " ++ toString lines.length ++ " total lines)"
      else
        output ++ configContent.content

/-! Lemmas about the keyed-update pattern shared by addConfigLocation and
updateAppConfigs: mapping one entry of a unique-keyed association list. -/

theorem find?_map_keyed (m : Registry) (key : String) (f : AppConfig → AppConfig) :
    ((m.map fun kv => if kv.1 == key then (kv.1, f kv.2) else kv).find?
        (fun kv => kv.1 == key))
      = (m.find? (fun kv => kv.1 == key)).map (fun kv => (kv.1, f kv.2)) := by
  rw [List.find?_map]
  have hp : ((fun kv => kv.1 == key) ∘ fun kv : String × AppConfig =>
      if kv.1 == key then (kv.1, f kv.2) else kv) = fun kv => kv.1 == key := by
    funext kv
    by_cases hk : kv.1 = key <;> simp [hk]
  rw [hp]
  cases hf : m.find? (fun kv => kv.1 == key) with
  | none => rfl
  | some kv =>
    have hkey : (kv.1 == key) = true := by
      have h2 := List.find?_some hf
      simpa using h2
    have hk : kv.1 = key := by simpa using hkey
    simp [hk]

theorem map_keyed_id (m : Registry) (key : String) (f : AppConfig → AppConfig)
    (h : m.find? (fun kv => kv.1 == key) = none) :
    (m.map fun kv => if kv.1 == key then (kv.1, f kv.2) else kv) = m := by
  induction m with
  | nil => rfl
  | cons kv rest ih =>
    rw [List.find?_cons] at h
    by_cases hk : kv.1 = key
    · subst hk
      simp at h
    · have hb : (kv.1 == key) = false := by simp [hk]
      rw [hb] at h
      simp only [List.map_cons, hb, Bool.false_eq_true, if_neg]
      rw [ih h]
      simp [hb]

theorem addConfigLocation_unknown (m : Registry) (appKey : String) (loc : ConfigLocation)
    (h : m.find? (fun kv => kv.1 == jsToLower appKey) = none) :
    addConfigLocation m appKey loc = m :=
  map_keyed_id m (jsToLower appKey) (fun a => { a with configs := a.configs ++ [loc] }) h

theorem updateAppConfigs_unknown (m : Registry) (appKey : String)
    (cfgs : List ConfigLocation)
    (h : m.find? (fun kv => kv.1 == jsToLower appKey) = none) :
    updateAppConfigs m appKey cfgs = m :=
  map_keyed_id m (jsToLower appKey) (fun a => { a with configs := cfgs }) h

theorem find?_addConfigLocation (m : Registry) (appKey : String) (loc : ConfigLocation) :
    ((addConfigLocation m appKey loc).find? (fun kv => kv.1 == jsToLower appKey))
      = (m.find? (fun kv => kv.1 == jsToLower appKey)).map
          (fun kv => (kv.1, { kv.2 with configs := kv.2.configs ++ [loc] })) :=
  find?_map_keyed m (jsToLower appKey) (fun a => { a with configs := a.configs ++ [loc] })

theorem find?_updateAppConfigs (m : Registry) (appKey : String)
    (cfgs : List ConfigLocation) :
    ((updateAppConfigs m appKey cfgs).find? (fun kv => kv.1 == jsToLower appKey))
      = (m.find? (fun kv => kv.1 == jsToLower appKey)).map
          (fun kv => (kv.1, { kv.2 with configs := cfgs })) :=
  find?_map_keyed m (jsToLower appKey) (fun a => { a with configs := cfgs })

/-- C3 counterexample: an operation that replaces locations does exist —
updateAppConfigs swaps the entire config list of an existing app; here it
empties the vscode list, which held one location. -/
theorem updateAppConfigs_replaces :
    (getAppConfig (updateAppConfigs APP_CONFIGS "vscode" []) "vscode").map AppConfig.configs
        = some []
      ∧ (getAppConfig APP_CONFIGS "vscode").map AppConfig.configs ≠ some [] := by
  exact ⟨rfl, by decide⟩

/-- C3 (amended): the registry is mutable at runtime through two
operations.  addConfigLocation appends one location to an existing app's
config list and no-ops for an unknown key, creating no new entry; but it
is not the only mutator: updateAppConfigs also exists and replaces an
existing app's entire config list (no-op for an unknown key). -/
theorem registry_mutations (m : Registry) (appKey : String) (loc : ConfigLocation)
    (cfgs : List ConfigLocation) :
    (getAppConfig m appKey = none →
        addConfigLocation m appKey loc = m ∧ updateAppConfigs m appKey cfgs = m)
      ∧ (∀ app, getAppConfig m appKey = some app →
          getAppConfig (addConfigLocation m appKey loc) appKey
              = some { app with configs := app.configs ++ [loc] }
            ∧ getAppConfig (updateAppConfigs m appKey cfgs) appKey
              = some { app with configs := cfgs }) := by
  constructor
  · intro h
    have hf : m.find? (fun kv => kv.1 == jsToLower appKey) = none := by
      unfold getAppConfig at h
      exact Option.map_eq_none'.mp h
    exact ⟨addConfigLocation_unknown m appKey loc hf,
           updateAppConfigs_unknown m appKey cfgs hf⟩
  · intro app h
    unfold getAppConfig at h
    obtain ⟨kv, hkv, happ⟩ := Option.map_eq_some'.mp h
    constructor
    · unfold getAppConfig
      rw [find?_addConfigLocation, hkv]
      simp [happ]
    · unfold getAppConfig
      rw [find?_updateAppConfigs, hkv]
      simp [happ]

/-- A fresh location used to exercise the mutation operations. -/
def testLoc : ConfigLocation :=
  { path := "~/.config/extra.json", type := .file,
    description := "extra location", format := .json }

/-- Witness for C3's theorem: the unknown key leaves the registry
untouched; appending to Cursor keeps the prior entry and adds the new one;
updateAppConfigs replaces the Cursor list outright. -/
theorem registry_mutations_witness :
    addConfigLocation APP_CONFIGS "unknown-app" testLoc = APP_CONFIGS
      ∧ getAppConfig (addConfigLocation APP_CONFIGS "Cursor" testLoc) "Cursor"
          = some { displayName := "Cursor",
                   configs := [ { path := "~/.cursor/mcp.json", type := .file,
                                  description := "Cursor MCP configuration", format := .json },
                                testLoc ] }
      ∧ getAppConfig (updateAppConfigs APP_CONFIGS "Cursor" [testLoc]) "Cursor"
          = some { displayName := "Cursor", configs := [testLoc] } := by
  refine ⟨((registry_mutations APP_CONFIGS "unknown-app" testLoc []).1 rfl).1, ?_, ?_⟩
  · exact ((registry_mutations APP_CONFIGS "Cursor" testLoc []).2 _ rfl).1
  · exact ((registry_mutations APP_CONFIGS "Cursor" testLoc [testLoc]).2 _ rfl).2

/-- A filesystem on which exactly the expanded vscode candidate exists. -/
def fsOnlyVscode : FS :=
  { access := fun _ => .ok ()
    stat := fun p => if p == "/home/u/.vscode/mcp.json" then .ok .file else .error "ENOENT"
    readFile := fun _ => .error "ENOENT"
    readdir := fun _ => .error "ENOENT" }

/-- C4 counterexample: resolving vscode hands back the candidate with the
absolute expanded path, yet afterwards the registry — and with it the
stored ConfigLocation — is unchanged and still carries the `~` template:
the stored path field is not rewritten in place. -/
theorem resolution_no_inplace_rewrite :
    ((findConfigsForAppSt fsOnlyVscode "/home/u" APP_CONFIGS "vscode").1.map
          ConfigLocation.path
        = ["/home/u/.vscode/mcp.json"])
      ∧ (findConfigsForAppSt fsOnlyVscode "/home/u" APP_CONFIGS "vscode").2 = APP_CONFIGS
      ∧ ((getAppConfig (findConfigsForAppSt fsOnlyVscode "/home/u" APP_CONFIGS "vscode").2
              "vscode").map (fun a => a.configs.map ConfigLocation.path)
          = some ["~/.vscode/mcp.json"]) :=
  ⟨rfl, rfl, rfl⟩

/-- C4 (amended): during resolution each kept candidate is returned as a
fresh copy whose path field holds the expanded absolute path; the stored
ConfigLocation is not modified — the registry after resolution is exactly
the registry before, so every stored path still holds its template. -/
theorem resolution_returns_copies (fs : FS) (home : String) (m : Registry) (appKey : String) :
    (findConfigsForAppSt fs home m appKey).2 = m
      ∧ (findConfigsForAppSt fs home m appKey).1 = resolveSpec fs home m appKey :=
  ⟨rfl, findConfigsForApp_eq_spec fs home m appKey⟩

/-- C9: getAppConfig is a case-insensitive lookup — two keys with the same
lowercasing (in particular keys differing only in letter case) return the
same entry — and a key matching no registry entry returns `none` (the
object index yields `undefined`, the not-found signal; the function is
total, so it never throws). -/
theorem getAppConfig_caseInsensitive (m : Registry) (k₁ k₂ : String)
    (h : jsToLower k₁ = jsToLower k₂) :
    getAppConfig m k₁ = getAppConfig m k₂
      ∧ ∀ k, (∀ kv ∈ m, kv.1 ≠ jsToLower k) → getAppConfig m k = none := by
  constructor
  · unfold getAppConfig; rw [h]
  · intro k hk
    unfold getAppConfig
    have : m.find? (fun kv => kv.1 == jsToLower k) = none := by
      rw [List.find?_eq_none]
      intro kv hm
      simpa using hk kv hm
    rw [this]
    rfl

/-- Witness for C9's theorem: "VSCode" and "vscode" resolve to the same
entry, and "notepad" is unknown. -/
theorem getAppConfig_caseInsensitive_witness :
    getAppConfig APP_CONFIGS "VSCode" = getAppConfig APP_CONFIGS "vscode"
      ∧ getAppConfig APP_CONFIGS "notepad" = none := by
  have h := getAppConfig_caseInsensitive APP_CONFIGS "VSCode" "vscode" rfl
  exact ⟨h.1, h.2 "notepad" (by decide)⟩

/-! Reader lemmas and claims. -/

theorem parseErrPrefix_ne_empty (msg : String) : "Parse error: " ++ msg ≠ "" := by
  intro h
  have h2 := congrArg String.length h
  rw [String.length_append] at h2
  have h3 : ("Parse error: " : String).length = 13 := by decide
  have h4 : ("" : String).length = 0 := by decide
  omega

theorem strLeB_total : ∀ as bs, strLeB as bs = true ∨ strLeB bs as = true := by
  intro as
  induction as with
  | nil => intro bs; left; rfl
  | cons a as ih =>
    intro bs
    cases bs with
    | nil => right; rfl
    | cons b bs =>
      simp only [strLeB]
      rcases Nat.lt_trichotomy a.toNat b.toNat with h | h | h
      · left; simp [h]
      · rcases ih bs with h2 | h2 <;> simp [h, h2]
      · right; simp [h, Nat.ne_of_gt h, Nat.lt_asymm h]

theorem strLeB_trans : ∀ as bs cs, strLeB as bs = true → strLeB bs cs = true →
    strLeB as cs = true := by
  intro as
  induction as with
  | nil => intro bs cs _ _; rfl
  | cons a as ih =>
    intro bs cs h1 h2
    cases bs with
    | nil => simp [strLeB] at h1
    | cons b bs =>
      cases cs with
      | nil => simp [strLeB] at h2
      | cons c cs =>
        simp only [strLeB] at h1 h2 ⊢
        split at h1
        · rename_i hab
          split at h2
          · rename_i hbc
            simp [Nat.lt_trans hab hbc]
          · split at h2
            · rename_i hbc
              have : b.toNat = c.toNat := by simpa using hbc
              simp [this ▸ hab]
            · exact absurd h2 (by simp)
        · split at h1
          · rename_i hab
            have hab2 : a.toNat = b.toNat := by simpa using hab
            split at h2
            · rename_i hbc
              simp [hab2 ▸ hbc]
            · split at h2
              · rename_i hbc
                have hbc2 : b.toNat = c.toNat := by simpa using hbc
                simp only [hab2, hbc2]
                simp [ih bs cs h1 h2]
              · exact absurd h2 (by simp)
          · exact absurd h1 (by simp)

theorem sortStrings_sorted (l : List String) :
    (sortStrings l).Sorted (fun a b => jsStrLe a b = true) :=
  @List.sorted_insertionSort String (fun a b => jsStrLe a b = true) _
    ⟨fun a b => strLeB_total a.data b.data⟩
    ⟨fun a b c => strLeB_trans a.data b.data c.data⟩ l

theorem sortStrings_perm (l : List String) : (sortStrings l).Perm l :=
  List.perm_insertionSort _ l

/-- C2: on a file-type location, a format-specific parse failure is
non-fatal — readConfig still returns the raw content, with a non-empty
error string — and an I/O read failure gives a ConfigContent with empty
content and the thrown message.  Both outcomes are ordinary return values
of the total function readConfig: nothing propagates to the caller. -/
theorem readConfig_failure_modes (fs : FS) (ext : ExtLib) (loc : ConfigLocation)
    (hty : loc.type = .file) :
    (∀ content msg, fs.readFile loc.path = .ok content →
        parseByFormat ext loc.format content = some (.error msg) →
        ConfigReader.readConfig fs ext loc =
            { path := loc.path, content := content, format := loc.format.toStr,
              parsed := none, error := some ("Parse error: " ++ msg) }
          ∧ "Parse error: " ++ msg ≠ "")
      ∧ (∀ e, fs.readFile loc.path = .error e →
          ConfigReader.readConfig fs ext loc =
            { path := loc.path, content := "", format := loc.format.toStr,
              parsed := none, error := some e }) := by
  constructor
  · intro content msg hread hparse
    refine ⟨?_, parseErrPrefix_ne_empty msg⟩
    simp [ConfigReader.readConfig, ConfigReader.readFileLoc, hty, hread, hparse]
  · intro e hread
    simp [ConfigReader.readConfig, ConfigReader.readFileLoc, hty, hread]

/-- The vscode file location as it comes back resolved. -/
def locJ : ConfigLocation :=
  { path := "/home/u/.vscode/mcp.json", type := .file,
    description := "VS Code MCP configuration", format := .json }

/-- External libraries whose parsers always fail. -/
def extFail : ExtLib :=
  { jsonParse := fun _ => .error "Unexpected token"
    plistParse := fun _ => .error "bad plist"
    yamlLoad := fun _ => .error "bad yaml"
    stringify2 := fun _ => "DUMP" }

/-- A filesystem returning malformed JSON text for every file. -/
def fsParseErr : FS :=
  { access := fun _ => .ok ()
    stat := fun _ => .ok .file
    readFile := fun _ => .ok "not json"
    readdir := fun _ => .ok [] }

/-- A filesystem whose reads are denied. -/
def fsIOErr : FS :=
  { access := fun _ => .error "EACCES: permission denied"
    stat := fun _ => .error "EACCES: permission denied"
    readFile := fun _ => .error "EACCES: permission denied"
    readdir := fun _ => .error "EACCES: permission denied" }

/-- Witness for C2's theorem: a malformed JSON file keeps its raw content
next to a non-empty parse error, and a permission failure yields empty
content with the message. -/
theorem readConfig_failure_modes_witness :
    ConfigReader.readConfig fsParseErr extFail locJ =
        { path := "/home/u/.vscode/mcp.json", content := "not json", format := "json",
          parsed := none, error := some "Parse error: Unexpected token" }
      ∧ ConfigReader.readConfig fsIOErr extFail locJ =
        { path := "/home/u/.vscode/mcp.json", content := "", format := "json",
          parsed := none, error := some "EACCES: permission denied" } :=
  ⟨((readConfig_failure_modes fsParseErr extFail locJ rfl).1 "not json"
      "Unexpected token" rfl rfl).1,
   (readConfig_failure_modes fsIOErr extFail locJ rfl).2 "EACCES: permission denied" rfl⟩

/-- C6: on a directory-type location whose listing succeeds, readConfig
drops every entry starting with a dot, sorts the rest lexicographically
(the sorted list is ordered under the string order and is a permutation of
the kept entries), and returns the synthetic listing as content with the
sorted entry list as the parsed value. -/
theorem readConfig_directory_listing (fs : FS) (ext : ExtLib) (loc : ConfigLocation)
    (entries : List String)
    (hty : loc.type = .directory)
    (h : fs.readdir loc.path = .ok entries) :
    ConfigReader.readConfig fs ext loc =
        { path := loc.path,
          content := "Directory contents:\n"
            ++ jsJoin "\n" ((sortStrings (entries.filter
                  (fun entry => !jsStartsWith entry "."))).map (fun file => "  " ++ file)),
          format := "directory",
          parsed := some (.arr ((sortStrings (entries.filter
              (fun entry => !jsStartsWith entry "."))).map .str)),
          error := none }
      ∧ (sortStrings (entries.filter (fun entry => !jsStartsWith entry "."))).Sorted
          (fun a b => jsStrLe a b = true)
      ∧ (sortStrings (entries.filter (fun entry => !jsStartsWith entry "."))).Perm
          (entries.filter (fun entry => !jsStartsWith entry ".")) := by
  refine ⟨?_, sortStrings_sorted _, sortStrings_perm _⟩
  simp [ConfigReader.readConfig, ConfigReader.readDirectory, hty, h]

/-- The claude code directory location as it comes back resolved. -/
def locClaude : ConfigLocation :=
  { path := "/home/u/.claude/", type := .directory,
    description := "Claude Code configuration directory", format := .directory }

/-- A filesystem whose directory listing is the spec's example. -/
def fsDir : FS :=
  { access := fun _ => .ok ()
    stat := fun _ => .ok .directory
    readFile := fun _ => .error "EISDIR"
    readdir := fun _ => .ok ["a.json", ".hidden", "b.txt"] }

/-- Witness for C6's theorem: entries `a.json`, `.hidden`, `b.txt` produce
exactly `a.json`, `b.txt` in sorted order. -/
theorem readConfig_directory_listing_witness :
    ConfigReader.readConfig fsDir extFail locClaude =
      { path := "/home/u/.claude/",
        content := "Directory contents:\n  a.json\n  b.txt",
        format := "directory",
        parsed := some (.arr [.str "a.json", .str "b.txt"]),
        error := none } :=
  (readConfig_directory_listing fsDir extFail locClaude ["a.json", ".hidden", "b.txt"]
    rfl rfl).1

theorem readConfig_json_ok (fs : FS) (ext : ExtLib) (loc : ConfigLocation)
    (content : String) (v : JsValue)
    (hty : loc.type = .file) (hfmt : loc.format = .json)
    (hread : fs.readFile loc.path = .ok content)
    (hparse : ext.jsonParse content = .ok v) :
    ConfigReader.readConfig fs ext loc =
      { path := loc.path, content := content, format := "json",
        parsed := some v, error := none } := by
  simp [ConfigReader.readConfig, ConfigReader.readFileLoc, hty, hfmt, hread,
    parseByFormat, hparse, Format.toStr]

/-- C7: reading a file-type json location whose content is well-formed
JSON — i.e. the external parse returns the structure `v` the content
serialises — yields that very `v` as the parsed value, the raw content,
and no error. -/
theorem readConfig_json_wellformed (fs : FS) (ext : ExtLib) (loc : ConfigLocation)
    (content : String) (v : JsValue)
    (hty : loc.type = .file) (hfmt : loc.format = .json)
    (hread : fs.readFile loc.path = .ok content)
    (hparse : ext.jsonParse content = .ok v) :
    ConfigReader.readConfig fs ext loc =
      { path := loc.path, content := content, format := "json",
        parsed := some v, error := none } :=
  readConfig_json_ok fs ext loc content v hty hfmt hread hparse

/-- A JSON library that parses the single document `[1,2]`. -/
def extJsonOk : ExtLib :=
  { jsonParse := fun s =>
      if s == "[1,2]" then .ok (.arr [.num 1, .num 2]) else .error "Unexpected token"
    plistParse := fun _ => .error "bad plist"
    yamlLoad := fun _ => .error "bad yaml"
    stringify2 := fun _ => "DUMP" }

/-- A filesystem holding the JSON document `[1,2]`. -/
def fsJson : FS :=
  { access := fun _ => .ok ()
    stat := fun _ => .ok .file
    readFile := fun _ => .ok "[1,2]"
    readdir := fun _ => .error "ENOTDIR" }

/-- Witness for C7's theorem: reading the serialised `[1,2]` gives back
the array value with no error. -/
theorem readConfig_json_wellformed_witness :
    ConfigReader.readConfig fsJson extJsonOk locJ =
      { path := "/home/u/.vscode/mcp.json", content := "[1,2]", format := "json",
        parsed := some (.arr [.num 1, .num 2]), error := none } :=
  readConfig_json_wellformed fsJson extJsonOk locJ "[1,2]"
    (.arr [.num 1, .num 2]) rfl rfl rfl rfl

/-- Well-formedness of the filesystem model: a thrown error carries a
non-empty message, as every Node `fs` error does. -/
def FSErrOk (fs : FS) : Prop :=
  (∀ p e, fs.readFile p = .error e → e ≠ "")
    ∧ (∀ p e, fs.readdir p = .error e → e ≠ "")

theorem readConfig_error_ne_empty (fs : FS) (ext : ExtLib) (loc : ConfigLocation)
    (hfs : FSErrOk fs) :
    ∀ e, (ConfigReader.readConfig fs ext loc).error = some e → e ≠ "" := by
  intro e he
  by_cases hty : (loc.type == LocType.directory) = true
  · cases hd : fs.readdir loc.path with
    | ok entries =>
      simp [ConfigReader.readConfig, ConfigReader.readDirectory, hty, hd] at he
    | error e2 =>
      simp [ConfigReader.readConfig, ConfigReader.readDirectory, hty, hd] at he
      exact he ▸ hfs.2 loc.path e2 hd
  · cases hr : fs.readFile loc.path with
    | error e2 =>
      simp [ConfigReader.readConfig, ConfigReader.readFileLoc, hty, hr] at he
      exact he ▸ hfs.1 loc.path e2 hr
    | ok content =>
      cases hp : parseByFormat ext loc.format content with
      | none =>
        simp [ConfigReader.readConfig, ConfigReader.readFileLoc, hty, hr, hp] at he
      | some r =>
        cases r with
        | ok v =>
          simp [ConfigReader.readConfig, ConfigReader.readFileLoc, hty, hr, hp] at he
        | error msg =>
          simp [ConfigReader.readConfig, ConfigReader.readFileLoc, hty, hr, hp] at he
          exact he ▸ parseErrPrefix_ne_empty msg

theorem foldl_push_eq (cond : Nat × String → Bool) (fmt : Nat × String → String) :
    ∀ (l : List (Nat × String)) (acc : List String),
      l.foldl (fun matchingLines p =>
          if cond p then matchingLines ++ [fmt p] else matchingLines) acc
        = acc ++ l.filterMap (fun p => if cond p then some (fmt p) else none) := by
  intro l
  induction l with
  | nil => intro acc; simp
  | cons p rest ih =>
    intro acc
    cases h : cond p <;> simp [h, ih, List.filterMap_cons]

/-- Spec-side search, from the spec's words: if the read produced an
error, the empty sequence; otherwise, for each 1-indexed line of the
content containing the term case-insensitively, the string
`Line N: <trimmed line>`, in line order. -/
def searchSpec (fs : FS) (ext : ExtLib) (loc : ConfigLocation) (term : String) :
    List String :=
  let cc := ConfigReader.readConfig fs ext loc
  match cc.error with
  | some _ => []
  | none =>
    (jsSplitNl cc.content).enum.filterMap fun p =>
      if jsIncludes (jsToLower p.2) (jsToLower term) then
        some ("Line " ++ toString (p.1 + 1) ++ ": " ++ jsTrim p.2)
      else none

/-- C5: over any well-formed filesystem (error messages non-empty, as
Node guarantees), searchInConfig returns exactly the `Line N: <trimmed>`
strings for the 1-indexed lines of the read content containing the term
case-insensitively, in line order — and the empty sequence whenever the
underlying read or parse produced an error (or no line matches, when the
filter keeps nothing). -/
theorem searchInConfig_correct (fs : FS) (ext : ExtLib) (loc : ConfigLocation)
    (term : String) (hfs : FSErrOk fs) :
    ConfigReader.searchInConfig fs ext loc term = searchSpec fs ext loc term := by
  simp only [ConfigReader.searchInConfig, searchSpec]
  cases he : (ConfigReader.readConfig fs ext loc).error with
  | some e =>
    have hne : e ≠ "" := readConfig_error_ne_empty fs ext loc hfs e he
    simp [he, strOptTruthy, hne]
  | none =>
    simp [he, strOptTruthy, foldl_push_eq]

/-- A filesystem holding a four-line text config with a theme on line 3. -/
def fsSearch : FS :=
  { access := fun _ => .ok ()
    stat := fun _ => .ok .file
    readFile := fun _ => .ok "one\ntwo\n  My Theme here  \nfour"
    readdir := fun _ => .ok [] }

/-- A plain-text file location. -/
def locText : ConfigLocation :=
  { path := "/cfg", type := .file, description := "plain text config", format := .text }

/-- Witness for C5's theorem: searching for "THEME" hits only line 3 and
returns its trimmed text, independent of the search term's case. -/
theorem searchInConfig_correct_witness :
    ConfigReader.searchInConfig fsSearch extFail locText "THEME"
        = searchSpec fsSearch extFail locText "THEME"
      ∧ ConfigReader.searchInConfig fsSearch extFail locText "THEME"
        = ["Line 3: My Theme here"] :=
  ⟨searchInConfig_correct fsSearch extFail locText "THEME"
      ⟨fun p e h => by simp [fsSearch] at h, fun p e h => by simp [fsSearch] at h⟩,
   rfl⟩

/-- The truncation the display path applies to raw text: more than 50
lines collapse to the first 50 plus a notice naming the total count. -/
def rawTail (content : String) : String :=
  let lines := jsSplitNl content
  if lines.length > 50 then
    jsJoin "\n" (lines.take 50)
      ++ "\n\n... (showing first 50 lines of " ++ toString lines.length ++ " total lines)"
  else content

/-- Spec-side display, from the spec's words with the truthiness
amendment: a set (non-empty) error gives a one-line error message; a
directory gives the pre-built listing; json/plist content whose parsed
value is truthy gives the pretty-printed dump; anything else gives the
raw text under the 50-line truncation. -/
def displaySpec (ext : ExtLib) (cc : ConfigContent) : String :=
  match cc.error with
  | some e => "Error reading " ++ cc.path ++ ": " ++ e
  | none =>
    let header := "📄 " ++ cc.path ++ "\n" ++ "Format: " ++ cc.format ++ "\n\n"
    if cc.format == "directory" then header ++ cc.content
    else if (cc.format == "json" || cc.format == "plist") && parsedTruthy cc.parsed then
      header ++ ext.stringify2 (cc.parsed.getD JsValue.null)
    else header ++ rawTail cc.content

/-- A json ConfigContent that parsed successfully to the falsy value
`null` and carries no error. -/
def ccNullParsed : ConfigContent :=
  { path := "/p", content := "null", parsed := some .null, format := "json", error := none }

set_option maxRecDepth 8192 in
/-- C8 counterexample: json content with a successfully parsed value is
not always pretty-printed — a parse result of `null` goes through the
raw-text branch, not the structural dump; and an error field holding the
empty string is not reported as an error line either. -/
theorem formatConfigForDisplay_not_all_parsed :
    ConfigReader.formatConfigForDisplay extFail ccNullParsed
        = "📄 /p\nFormat: json\n\nnull"
      ∧ ConfigReader.formatConfigForDisplay extFail ccNullParsed
        ≠ "📄 /p\nFormat: json\n\n" ++ extFail.stringify2 JsValue.null
      ∧ ConfigReader.formatConfigForDisplay extFail
          { path := "/q", content := "body", format := "text", error := some "" }
        ≠ "Error reading /q: " := by
  refine ⟨rfl, ?_, ?_⟩ <;> decide

/-- C8 (amended): on every ConfigContent whose error field, when present,
is a non-empty message (true of everything the reader produces):
formatConfigForDisplay returns a one-line error message when error is
set; the pre-built listing for a directory; the pretty-printed structural
dump for json/plist content whose parsed value is truthy (not merely
present); and otherwise the raw text, truncated to the first 50 lines
with a trailing notice naming the total line count when there are more
than 50. -/
theorem formatConfigForDisplay_spec (ext : ExtLib) (cc : ConfigContent)
    (herr : cc.error ≠ some "") :
    ConfigReader.formatConfigForDisplay ext cc = displaySpec ext cc := by
  unfold ConfigReader.formatConfigForDisplay displaySpec rawTail
  cases he : cc.error with
  | some e =>
    have hne : e ≠ "" := fun h => herr (by rw [he, h])
    simp [he, strOptTruthy, hne]
  | none =>
    simp only [he, strOptTruthy, Bool.and_comm]
    by_cases h1 : cc.format = "directory"
    · simp [h1]
    · simp only [h1, if_false, beq_iff_eq]
      by_cases h2 : (parsedTruthy cc.parsed && (cc.format == "json" || cc.format == "plist")) = true
      · simp only [beq_iff_eq] at h2
        simp [h2]
      · simp only [beq_iff_eq] at h2
        simp only [h2, if_false, Bool.not_eq_true]
        by_cases h3 : 50 < (jsSplitNl cc.content).length <;>
          simp [h2, h3, String.append_assoc]

/-- A plain-text ConfigContent of 60 identical lines. -/
def cc60 : ConfigContent :=
  { path := "/t", content := jsJoin "\n" (List.replicate 60 "line"),
    format := "text", error := none }

set_option maxRecDepth 40000 in
/-- Witness for C8's theorem: a 60-line plain-text content displays as
its first 50 lines plus a notice stating 60 total lines. -/
theorem formatConfigForDisplay_spec_witness :
    ConfigReader.formatConfigForDisplay extFail cc60 = displaySpec extFail cc60
      ∧ displaySpec extFail cc60
        = "📄 /t\nFormat: text\n\n" ++ jsJoin "\n" (List.replicate 50 "line")
          ++ "\n\n... (showing first 50 lines of 60 total lines)" :=
  ⟨formatConfigForDisplay_spec extFail cc60 (by simp [cc60]), by decide⟩

/-- C10: formatConfigForDisplay pretty-prints json/plist content only
when the parsed value is truthy: a ConfigContent in one of those formats
with no error and a falsy parsed value takes the raw-text branch (with
its 50-line truncation), not the structural dump; in particular a json
file whose content successfully parses to the falsy top-level value
`null`, `false` or `0` is displayed as raw text. -/
theorem formatConfigForDisplay_falsy_raw (ext : ExtLib) :
    (∀ cc : ConfigContent, cc.error = none →
        (cc.format = "json" ∨ cc.format = "plist") →
        parsedTruthy cc.parsed = false →
        ConfigReader.formatConfigForDisplay ext cc
          = "📄 " ++ cc.path ++ "\n" ++ "Format: " ++ cc.format ++ "\n\n"
            ++ rawTail cc.content)
      ∧ (∀ (fs : FS) (loc : ConfigLocation) (content : String) (v : JsValue),
          loc.type = .file → loc.format = .json →
          fs.readFile loc.path = .ok content →
          ext.jsonParse content = .ok v →
          v.truthy = false →
          ConfigReader.formatConfigForDisplay ext (ConfigReader.readConfig fs ext loc)
            = "📄 " ++ loc.path ++ "\n" ++ "Format: " ++ "json" ++ "\n\n"
              ++ rawTail content) := by
  have base : ∀ cc : ConfigContent, cc.error = none →
      (cc.format = "json" ∨ cc.format = "plist") →
      parsedTruthy cc.parsed = false →
      ConfigReader.formatConfigForDisplay ext cc
        = "📄 " ++ cc.path ++ "\n" ++ "Format: " ++ cc.format ++ "\n\n"
          ++ rawTail cc.content := by
    intro cc herr hfmt hfalsy
    unfold ConfigReader.formatConfigForDisplay rawTail
    have hdir : (cc.format == "directory") = false := by
      rcases hfmt with h | h <;> simp [h]
    have hcond : (parsedTruthy cc.parsed
        && (cc.format == "json" || cc.format == "plist")) = false := by
      simp [hfalsy]
    simp only [herr, strOptTruthy, hdir, hcond, Bool.false_eq_true, if_false]
    by_cases h3 : 50 < (jsSplitNl cc.content).length <;>
      simp [h3, String.append_assoc]
  refine ⟨base, ?_⟩
  intro fs loc content v hty hfmt hread hparse hfalsy
  rw [readConfig_json_ok fs ext loc content v hty hfmt hread hparse]
  have h2 := base
    { path := loc.path, content := content, format := "json",
      parsed := some v, error := none }
    rfl (Or.inl rfl) (by simpa [parsedTruthy] using hfalsy)
  exact h2

/-- A JSON library that parses the single document `null`. -/
def extNull : ExtLib :=
  { jsonParse := fun s => if s == "null" then .ok .null else .error "Unexpected token"
    plistParse := fun _ => .error "bad plist"
    yamlLoad := fun _ => .error "bad yaml"
    stringify2 := fun _ => "DUMP" }

/-- A filesystem holding the JSON document `null`. -/
def fsNull : FS :=
  { access := fun _ => .ok ()
    stat := fun _ => .ok .file
    readFile := fun _ => .ok "null"
    readdir := fun _ => .error "ENOTDIR" }

/-- Witness for C10's theorem: the ConfigContent parsed to `null` and the
end-to-end read of a json file containing `null` both display as raw text
(here `null`), not as the library's dump. -/
theorem formatConfigForDisplay_falsy_raw_witness :
    ConfigReader.formatConfigForDisplay extNull ccNullParsed
        = "📄 /p\nFormat: json\n\nnull"
      ∧ ConfigReader.formatConfigForDisplay extNull
          (ConfigReader.readConfig fsNull extNull locJ)
        = "📄 /home/u/.vscode/mcp.json\nFormat: json\n\nnull" := by
  constructor
  · exact (formatConfigForDisplay_falsy_raw extNull).1 ccNullParsed rfl (Or.inl rfl) rfl
  · exact (formatConfigForDisplay_falsy_raw extNull).2 fsNull locJ "null" .null
      rfl rfl rfl rfl rfl
